import Mathlib

/-!
Verification development for the DynamoDB identity wrapper
(`environments/dynamodb/wrappers/identity_wrapper.py`): a shallow embedding
of the paginated, capacity-budgeted scan engine, the override aggregators,
the uuid lookups, the bulk writer and the key-value accessor, together with
theorems about their behaviour.
-/

namespace IdentityWrapper

/-- An embedded feature object, the value of the `feature` key of an override
entry; its `id` key may be absent (`none`). -/
structure Feature where
  id : Option ℤ
deriving DecidableEq, Repr

/-- One override entry of an identity document.  The two aggregators access
it differently: `get_identity_overrides_count` reads the flat `feature_id`
key, `get_identity_override_feature_counts` reads the nested `feature.id`
key; either key may be absent in malformed data. -/
structure FeatureOverride where
  feature_id : Option ℤ
  feature : Option Feature
deriving DecidableEq, Repr

/-- An identity document (one DynamoDB item).  `identity_features = none`
models an item without the `identity_features` attribute. -/
structure Identity where
  composite_key : String
  environment_api_key : String
  identifier : String
  identity_uuid : String
  identity_features : Option (List FeatureOverride)
deriving DecidableEq, Repr

/-- A boto3 condition used as a `FilterExpression`; the wrapper only ever
builds `Attr("identity_features").ne([])`. -/
inductive FilterExpr where
  | attrNeEmptyList (attributeName : String) : FilterExpr
deriving DecidableEq, Repr

/-- The filter built by `iter_all_items_paginated` when `overrides_only`
is set: `Attr("identity_features").ne([])`. -/
def overridesFilter : FilterExpr := .attrNeEmptyList "identity_features"

/-- DynamoDB evaluation of the filter against an item: a comparator on an
absent attribute is false, so the item passes `identity_features <> []`
exactly when the attribute exists and is a non-empty list. -/
def FilterExpr.eval : FilterExpr → Identity → Bool
  | .attrNeEmptyList attributeName, item =>
    if attributeName = "identity_features" then
      match item.identity_features with
      | some fs => decide (fs ≠ [])
      | none => false
    else
      false

/-- The key condition built by `get_all_items`:
`Key("environment_api_key").eq(environment_api_key)`. -/
inductive KeyCond where
  | envKeyEq (value : String) : KeyCond
deriving DecidableEq, Repr

/-- The keyword arguments `iter_all_items_paginated` accumulates in
`get_all_items_kwargs` and passes to `get_all_items` on every page request. -/
structure GetAllItemsArgs where
  environment_api_key : String
  limit : ℕ
  start_key : Option ℕ
  filter_expression : Option FilterExpr
  projection_expression : Option String
  return_consumed_capacity : Bool
deriving DecidableEq, Repr

/-- The query request `get_all_items` sends to the table (the
`query_kwargs` dict), with optional fields absent when not set. -/
structure QueryRequest where
  IndexName : String
  KeyConditionExpression : KeyCond
  Limit : ℕ
  ExclusiveStartKey : Option ℕ
  FilterExpression : Option FilterExpr
  ProjectionExpression : Option String
  ReturnConsumedCapacity : Option String
deriving DecidableEq, Repr

/-- `get_all_items`: builds the query request from its arguments.  Optional
kwargs are only included when set; `ReturnConsumedCapacity` is `"TOTAL"`
exactly when capacity reporting was requested. -/
def get_all_items (a : GetAllItemsArgs) : QueryRequest :=
  { IndexName := "environment_api_key-identifier-index"
    KeyConditionExpression := .envKeyEq a.environment_api_key
    Limit := a.limit
    ExclusiveStartKey := a.start_key
    FilterExpression := a.filter_expression
    ProjectionExpression := a.projection_expression
    ReturnConsumedCapacity :=
      if a.return_consumed_capacity then some "TOTAL" else none }

/-- One page response from the store: its items, the continuation key
(`LastEvaluatedKey`, absent when the scan is complete), and the consumed
capacity report (absent when the store reports none). -/
structure Page where
  items : List Identity
  lastEvaluatedKey : Option ℕ
  consumedCapacity : Option ℚ
deriving DecidableEq, Repr

/-- The observable behaviour of one run of the scan generator: the page
requests issued in order, the items yielded in order, the final value of
the generator's `capacity_spent` variable, and the
`CapacityBudgetExceeded(capacity_budget, capacity_spent)` error if one was
raised. -/
structure ScanTrace where
  requests : List QueryRequest
  yielded : List Identity
  capacity_spent_final : ℚ
  error : Option (WithTop ℚ × ℚ)
deriving DecidableEq, Repr

/-- The `while last_evaluated_key:` loop body of `iter_all_items_paginated`,
run against the sequence of page responses the store would return.  Before
each request: if `capacity_spent >= capacity_budget`, raise
`CapacityBudgetExceeded(capacity_budget, capacity_spent)`.  Otherwise issue
the request built from the current kwargs; add the page's consumed-capacity
report to `capacity_spent` when present (the `suppress(KeyError)` block);
yield the page's items; if the page carries a `LastEvaluatedKey`, store it
as the next `start_key` and continue, else end the scan. -/
def iterLoop (args : GetAllItemsArgs) (capacity_budget : WithTop ℚ)
    (capacity_spent : ℚ) (pages : List Page) : ScanTrace :=
  if capacity_budget ≤ (capacity_spent : WithTop ℚ) then
    { requests := [], yielded := [], capacity_spent_final := capacity_spent
      error := some (capacity_budget, capacity_spent) }
  else
    match pages with
    | [] =>
      { requests := [], yielded := [], capacity_spent_final := capacity_spent
        error := none }
    | page :: rest =>
      let req := get_all_items args
      let spent' : ℚ :=
        match page.consumedCapacity with
        | some c => capacity_spent + c
        | none => capacity_spent
      match page.lastEvaluatedKey with
      | some lek =>
        let t := iterLoop { args with start_key := some lek }
          capacity_budget spent' rest
        { requests := req :: t.requests, yielded := page.items ++ t.yielded
          capacity_spent_final := t.capacity_spent_final, error := t.error }
      | none =>
        { requests := [req], yielded := page.items
          capacity_spent_final := spent', error := none }
termination_by pages.length

/-- `iter_all_items_paginated`: sets up `get_all_items_kwargs`
(`return_consumed_capacity` exactly when the budget is not `Inf`, the
`identity_features <> []` filter exactly when `overrides_only`), initialises
`capacity_spent = 0`, and runs the pagination loop against the store's page
responses. -/
def iter_all_items_paginated (environment_api_key : String) (limit : ℕ)
    (projection_expression : Option String) (capacity_budget : WithTop ℚ)
    (overrides_only : Bool) (pages : List Page) : ScanTrace :=
  iterLoop
    { environment_api_key := environment_api_key
      limit := limit
      start_key := none
      filter_expression :=
        if overrides_only then some overridesFilter else none
      projection_expression := projection_expression
      return_consumed_capacity := decide (capacity_budget ≠ ⊤) }
    capacity_budget 0 pages

/-- A raised Python exception relevant to the wrapper's dict accesses:
`KeyError(key)`. -/
inductive PyErr where
  | keyError (key : String) : PyErr
deriving DecidableEq, Repr

/-- The set comprehension `{f["feature_id"] for f in identity_features}` of
`get_identity_overrides_count`, evaluated left to right: the direct
subscript raises `KeyError("feature_id")` at the first entry missing that
key. -/
def featureIdsOfOverrides : List FeatureOverride → Except PyErr (List ℤ)
  | [] => .ok []
  | f :: rest =>
    match f.feature_id with
    | none => .error (.keyError "feature_id")
    | some v =>
      match featureIdsOfOverrides rest with
      | .error e => .error e
      | .ok vs => .ok (v :: vs)

/-- The per-identity summand of `get_identity_overrides_count`:
`len({f["feature_id"] for f in identity["identity_features"]})`.  The direct
subscript `identity["identity_features"]` raises `KeyError` when the
attribute is absent; the set collapses duplicate feature ids, so its length
is the number of distinct ids. -/
def identityOverridesCount (identity : Identity) : Except PyErr ℕ :=
  match identity.identity_features with
  | none => .error (.keyError "identity_features")
  | some fs =>
    match featureIdsOfOverrides fs with
    | .error e => .error e
    | .ok vs => .ok vs.dedup.length

/-- `get_identity_overrides_count`: the sum of per-identity distinct
override counts over the identities yielded by
`iter_all_items_paginated(environment_api_key, overrides_only=True)`
(the argument list is that scan's yielded items); the first `KeyError`
raised by a malformed entry propagates. -/
def get_identity_overrides_count : List Identity → Except PyErr ℕ
  | [] => .ok 0
  | identity :: rest =>
    match identityOverridesCount identity with
    | .error e => .error e
    | .ok n =>
      match get_identity_overrides_count rest with
      | .error e => .error e
      | .ok m => .ok (n + m)

/-- `feature_override.get("feature", {}).get("id", 0)`: the defensively
defaulted feature id of one override entry — `0` when the `feature` key or
its `id` key is absent. -/
def overrideFeatureId (f : FeatureOverride) : ℤ :=
  match f.feature with
  | none => 0
  | some feat => feat.id.getD 0

/-- The `unique_feature_ids` set built per identity by
`get_identity_override_feature_counts`, from
`identity.get("identity_features", [])` (absent attribute defaults to the
empty list); represented as the deduplicated list of defaulted ids. -/
def unique_feature_ids (identity : Identity) : List ℤ :=
  ((identity.identity_features.getD []).map overrideFeatureId).dedup

/-- The inner counting loop of `get_identity_override_feature_counts`:
`feature_to_identity_count[fid] = feature_to_identity_count.get(fid, 0) + 1`
for each id of the identity's `unique_feature_ids` set.  The dict is
modelled as a total function with absent keys reading `0`. -/
def bumpCounts (counts : ℤ → ℕ) : List ℤ → (ℤ → ℕ)
  | [] => counts
  | fid :: rest =>
    bumpCounts (fun x => if x = fid then counts x + 1 else counts x) rest

/-- `get_identity_override_feature_counts`: folds the counting loop over
the identities yielded by
`iter_all_items_paginated(environment_api_key, overrides_only=True)`
(the argument list is that scan's yielded items), starting from the empty
dict. -/
def get_identity_override_feature_counts (identities : List Identity) :
    ℤ → ℕ :=
  identities.foldl (fun counts identity =>
    bumpCounts counts (unique_feature_ids identity)) (fun _ => 0)

/-- `write_identities`: the batch-writer loop.  Each identity document whose
`identifier` passes `len(identity_document["identifier"]) > 1024` — Python's
`len` on a `str`, i.e. the number of characters — is logged and skipped
(`continue`); every other document is put into the batch, in order.  The
result is the list of documents actually sent to the store. -/
def write_identities : List Identity → List Identity
  | [] => []
  | identity :: rest =>
    if identity.identifier.length > 1024 then
      write_identities rest
    else
      identity :: write_identities rest

/-- The number of UTF-8 bytes of a string: the encoded length the DynamoDB
sort-key quota (1024 bytes) is stated in. -/
def utf8Bytes (s : String) : ℕ := (s.data.map Char.utf8Size).sum

/-- `ObjectDoesNotExist`, raised by `get_item_from_uuid` on a lookup miss. -/
structure ObjectDoesNotExist where
deriving DecidableEq, Repr

/-- The REST-framework `NotFound` error raised by
`get_item_from_uuid_or_404`. -/
structure NotFoundError where
deriving DecidableEq, Repr

/-- The `identity_uuid-index` query issued by `get_item_from_uuid`:
`Key("identity_uuid").eq(uuid)` with `Limit=limit`, over the table's items
(the table modelled as the list of stored identity documents). -/
def query_identity_uuid_index (table : List Identity) (uuid : String)
    (limit : ℕ) : List Identity :=
  (table.filter (fun i => i.identity_uuid = uuid)).take limit

/-- `get_item_from_uuid`: queries the uuid index with `Limit=1` and returns
`Items[0]`; the `IndexError` on an empty result is translated to
`ObjectDoesNotExist`. -/
def get_item_from_uuid (table : List Identity) (uuid : String) :
    Except ObjectDoesNotExist Identity :=
  match query_identity_uuid_index table uuid 1 with
  | [] => .error {}
  | i :: _ => .ok i

/-- `get_item_from_uuid_or_404`: same lookup, with `ObjectDoesNotExist`
re-raised as `NotFound`. -/
def get_item_from_uuid_or_404 (table : List Identity) (uuid : String) :
    Except NotFoundError Identity :=
  match get_item_from_uuid table uuid with
  | .error _ => .error {}
  | .ok i => .ok i

/-- `ValueError`, raised by `get_segment_ids` when neither argument is
given. -/
structure ValueError where
deriving DecidableEq, Repr

/-- `get_segment_ids`: requires one of `identity_pk` / `identity_model`;
resolves the identity by uuid lookup when only the pk is given; the body
after the lookup (environment fetch, context mapping and
`get_context_segments` — external collaborators) is the parameter
`resolveSegments`.  The whole body runs under `suppress(ObjectDoesNotExist)`,
so a lookup miss falls through to `return []`. -/
def get_segment_ids (table : List Identity) (identity_pk : Option String)
    (identity_model : Option Identity) (resolveSegments : Identity → List ℤ) :
    Except ValueError (List ℤ) :=
  if identity_pk = none ∧ identity_model = none then
    .error {}
  else
    match identity_model with
    | some identity => .ok (resolveSegments identity)
    | none =>
      match get_item_from_uuid table (identity_pk.getD "") with
      | .error _ => .ok []
      | .ok identity => .ok (resolveSegments identity)

/-- The identities table as a key-value store: `composite_key` to stored
item. -/
def TableState : Type := String → Option Identity

/-- The table with nothing written. -/
def emptyTable : TableState := fun _ => none

/-- `put_item(identity_dict)`: `table.put_item(Item=identity_dict)` — an
upsert keyed by the item's own `composite_key` attribute. -/
def put_item (table : TableState) (identity_dict : Identity) : TableState :=
  fun k => if k = identity_dict.composite_key then some identity_dict
           else table k

/-- `get_item(composite_key)`:
`table.get_item(Key={"composite_key": composite_key}).get("Item")` — a
point lookup returning the stored item or absent. -/
def get_item (table : TableState) (composite_key : String) :
    Option Identity :=
  table composite_key

/-- The concatenation of the items of a list of pages, in page order. -/
def pagesItems (pages : List Page) : List Identity :=
  (pages.map Page.items).flatten

lemma top_not_le_coe (s : ℚ) : ¬ ((⊤ : WithTop ℚ) ≤ (s : WithTop ℚ)) := by
  simp

/-- Core pagination lemma: with an unbounded budget, a run against pages
`front ++ [last]` where every `front` page carries a continuation key and
`last` does not yields the concatenation of all items, issues exactly one
request per page, and raises no error. -/
lemma iterLoop_complete (front : List Page) (last : Page)
    (hlast : last.lastEvaluatedKey = none) :
    ∀ (args : GetAllItemsArgs) (spent : ℚ),
    (∀ p ∈ front, p.lastEvaluatedKey.isSome) →
    (iterLoop args ⊤ spent (front ++ [last])).yielded
        = pagesItems (front ++ [last]) ∧
    (iterLoop args ⊤ spent (front ++ [last])).requests.length
        = front.length + 1 ∧
    (iterLoop args ⊤ spent (front ++ [last])).error = none := by
  induction front with
  | nil =>
    intro args spent _
    rw [iterLoop.eq_def, if_neg (top_not_le_coe spent)]
    simp [hlast, pagesItems]
  | cons p front ih =>
    intro args spent hfront
    obtain ⟨lek, hlek⟩ :=
      Option.isSome_iff_exists.mp (hfront p (by simp))
    have hf : ∀ q ∈ front, q.lastEvaluatedKey.isSome := by
      intro q hq; exact hfront q (by simp [hq])
    rw [List.cons_append, iterLoop.eq_def, if_neg (top_not_le_coe spent)]
    cases hcap : p.consumedCapacity with
    | none =>
      simp only [hlek, hcap]
      obtain ⟨h1, h2, h3⟩ := ih { args with start_key := some lek } spent hf
      exact ⟨by simp [h1, pagesItems], by simp [h2], by simpa using h3⟩
    | some c =>
      simp only [hlek, hcap]
      obtain ⟨h1, h2, h3⟩ :=
        ih { args with start_key := some lek } (spent + c) hf
      exact ⟨by simp [h1, pagesItems], by simp [h2], by simpa using h3⟩

/-- With an unbounded budget the budget check can never trigger: no run
raises an error, whatever the store returns. -/
lemma iterLoop_top_no_error (pages : List Page) :
    ∀ (args : GetAllItemsArgs) (spent : ℚ),
    (iterLoop args ⊤ spent pages).error = none := by
  induction pages with
  | nil =>
    intro args spent
    rw [iterLoop.eq_def, if_neg (top_not_le_coe spent)]
  | cons p rest ih =>
    intro args spent
    rw [iterLoop.eq_def, if_neg (top_not_le_coe spent)]
    cases hlek : p.lastEvaluatedKey with
    | none => simp [hlek]
    | some lek => simp [hlek, ih]

/-- Every request issued by one run carries the fields fixed by the initial
kwargs: only `ExclusiveStartKey` varies across pages. -/
lemma iterLoop_requests_fields (pages : List Page) :
    ∀ (args : GetAllItemsArgs) (B : WithTop ℚ) (spent : ℚ),
    ∀ req ∈ (iterLoop args B spent pages).requests,
      req.ReturnConsumedCapacity
          = (if args.return_consumed_capacity then some "TOTAL" else none) ∧
      req.FilterExpression = args.filter_expression ∧
      req.IndexName = "environment_api_key-identifier-index" ∧
      req.Limit = args.limit ∧
      req.KeyConditionExpression = KeyCond.envKeyEq args.environment_api_key ∧
      req.ProjectionExpression = args.projection_expression := by
  induction pages with
  | nil =>
    intro args B spent req hreq
    rw [iterLoop.eq_def] at hreq
    by_cases hb : B ≤ (spent : WithTop ℚ) <;> simp [hb] at hreq
  | cons p rest ih =>
    intro args B spent req hreq
    rw [iterLoop.eq_def] at hreq
    by_cases hb : B ≤ (spent : WithTop ℚ)
    · simp [hb] at hreq
    · rw [if_neg hb] at hreq
      cases hlek : p.lastEvaluatedKey with
      | none =>
        simp only [hlek, List.mem_singleton] at hreq
        subst hreq
        exact ⟨rfl, rfl, rfl, rfl, rfl, rfl⟩
      | some lek =>
        simp only [hlek, List.mem_cons] at hreq
        rcases hreq with hreq | hreq
        · subst hreq
          exact ⟨rfl, rfl, rfl, rfl, rfl, rfl⟩
        · exact ih { args with start_key := some lek } B _ req hreq

/-- When the store reports no consumed capacity on any page,
`capacity_spent` is never incremented. -/
lemma iterLoop_spent_final (pages : List Page)
    (hnone : ∀ p ∈ pages, p.consumedCapacity = none) :
    ∀ (args : GetAllItemsArgs) (B : WithTop ℚ) (spent : ℚ),
    (iterLoop args B spent pages).capacity_spent_final = spent := by
  induction pages with
  | nil =>
    intro args B spent
    rw [iterLoop.eq_def]
    by_cases hb : B ≤ (spent : WithTop ℚ) <;> simp [hb]
  | cons p rest ih =>
    intro args B spent
    have hp : p.consumedCapacity = none := hnone p (by simp)
    have hr : ∀ q ∈ rest, q.consumedCapacity = none := by
      intro q hq; exact hnone q (by simp [hq])
    rw [iterLoop.eq_def]
    by_cases hb : B ≤ (spent : WithTop ℚ)
    · simp [hb]
    · rw [if_neg hb]
      cases hlek : p.lastEvaluatedKey with
      | none => simp [hlek, hp]
      | some lek => simp [hlek, hp, ih hr]

/-- Every yielded item comes from some page the store returned. -/
lemma iterLoop_yielded_mem (pages : List Page) :
    ∀ (args : GetAllItemsArgs) (B : WithTop ℚ) (spent : ℚ) (i : Identity),
    i ∈ (iterLoop args B spent pages).yielded → ∃ p ∈ pages, i ∈ p.items := by
  induction pages with
  | nil =>
    intro args B spent i hi
    rw [iterLoop.eq_def] at hi
    by_cases hb : B ≤ (spent : WithTop ℚ) <;> simp [hb] at hi
  | cons p rest ih =>
    intro args B spent i hi
    rw [iterLoop.eq_def] at hi
    by_cases hb : B ≤ (spent : WithTop ℚ)
    · simp [hb] at hi
    · rw [if_neg hb] at hi
      cases hlek : p.lastEvaluatedKey with
      | none =>
        simp only [hlek] at hi
        exact ⟨p, by simp, hi⟩
      | some lek =>
        simp only [hlek, List.mem_append] at hi
        rcases hi with hi | hi
        · exact ⟨p, by simp, hi⟩
        · obtain ⟨q, hq, hiq⟩ := ih { args with start_key := some lek } B _ i hi
          exact ⟨q, by simp [hq], hiq⟩

/-- C2: for every sequence of pages the store returns for one
`environment_api_key` (every page but the last carrying a continuation key,
the last carrying none), the paginated scan yields exactly the
concatenation of the pages' items in page order, issues exactly one request
per page — so the sequence ends exactly at the page without a
`LastEvaluatedKey` — and raises no error. -/
theorem iter_all_items_paginated_yields_concatenation
    (environment_api_key : String) (limit : ℕ)
    (projection_expression : Option String) (overrides_only : Bool)
    (front : List Page) (last : Page)
    (hfront : ∀ p ∈ front, p.lastEvaluatedKey.isSome)
    (hlast : last.lastEvaluatedKey = none) :
    (iter_all_items_paginated environment_api_key limit projection_expression
        ⊤ overrides_only (front ++ [last])).yielded
      = pagesItems (front ++ [last]) ∧
    (iter_all_items_paginated environment_api_key limit projection_expression
        ⊤ overrides_only (front ++ [last])).requests.length
      = front.length + 1 ∧
    (iter_all_items_paginated environment_api_key limit projection_expression
        ⊤ overrides_only (front ++ [last])).error = none :=
  iterLoop_complete front last hlast _ 0 hfront

/-- Witness for C2: a two-page store response, the first page carrying a
continuation key, the second not; the scan yields the three items in page
order and issues two requests. -/
theorem iter_all_items_paginated_yields_concatenation_witness :
    let i1 : Identity := ⟨"k1", "env", "id1", "u1", some []⟩
    let i2 : Identity := ⟨"k2", "env", "id2", "u2", some []⟩
    let i3 : Identity := ⟨"k3", "env", "id3", "u3", some []⟩
    let p1 : Page := ⟨[i1, i2], some 7, none⟩
    let p2 : Page := ⟨[i3], none, none⟩
    (iter_all_items_paginated "env" 10 none ⊤ false [p1, p2]).yielded
      = [i1, i2, i3] ∧
    (iter_all_items_paginated "env" 10 none ⊤ false [p1, p2]).requests.length
      = 2 ∧
    (iter_all_items_paginated "env" 10 none ⊤ false [p1, p2]).error = none := by
  intro i1 i2 i3 p1 p2
  have h := iter_all_items_paginated_yields_concatenation "env" 10 none false
    [p1] p2 (by intro p hp; simp at hp; subst hp; rfl) rfl
  simpa [pagesItems, i1, i2, i3, p1, p2] using h

/-- Core budget lemma: when `n` is the first count of requested pages whose
reported capacities reach the budget (starting from `spent`), and pages up
to there all carry continuation keys, the loop requests exactly `n` pages,
yields their items, and raises `CapacityBudgetExceeded` carrying the budget
and the accumulated spend. -/
lemma iterLoop_budget_abort (B : ℚ) :
    ∀ (n : ℕ) (pages : List Page) (cs : List ℚ) (args : GetAllItemsArgs)
      (spent : ℚ),
    pages.map Page.consumedCapacity = cs.map some →
    (∀ p ∈ pages, p.lastEvaluatedKey.isSome) →
    n < pages.length →
    B ≤ spent + (cs.take n).sum →
    (∀ m < n, spent + (cs.take m).sum < B) →
    (iterLoop args B spent pages).requests.length = n ∧
    (iterLoop args B spent pages).yielded = pagesItems (pages.take n) ∧
    (iterLoop args B spent pages).error
        = some ((B : WithTop ℚ), spent + (cs.take n).sum) := by
  intro n
  induction n with
  | zero =>
    intro pages cs args spent _ _ _ hge _
    have hge' : B ≤ spent := by simpa using hge
    rw [iterLoop.eq_def, if_pos (by exact_mod_cast hge')]
    simp [pagesItems]
  | succ n ih =>
    intro pages cs args spent hmap hlek hn hge hlt
    have hsp : spent < B := by simpa using hlt 0 (Nat.succ_pos n)
    have hneg : ¬ B ≤ (spent : WithTop ℚ) := by
      simp only [WithTop.coe_le_coe]
      exact not_le.mpr hsp
    cases pages with
    | nil => simp at hn
    | cons p rest =>
      cases cs with
      | nil => simp at hmap
      | cons c cs =>
        simp only [List.map_cons, List.cons.injEq] at hmap
        obtain ⟨hcap, hmap'⟩ := hmap
        obtain ⟨lek, hlekp⟩ :=
          Option.isSome_iff_exists.mp (hlek p (by simp))
        have hlekr : ∀ q ∈ rest, q.lastEvaluatedKey.isSome := by
          intro q hq; exact hlek q (by simp [hq])
        have hnr : n < rest.length := by simpa using hn
        have hger : B ≤ (spent + c) + (cs.take n).sum := by
          simpa [add_assoc] using hge
        have hltr : ∀ m < n, (spent + c) + (cs.take m).sum < B := by
          intro m hm
          simpa [add_assoc] using hlt (m + 1) (Nat.succ_lt_succ hm)
        obtain ⟨h1, h2, h3⟩ :=
          ih rest cs { args with start_key := some lek } (spent + c)
            hmap' hlekr hnr hger hltr
        rw [iterLoop.eq_def, if_neg hneg]
        simp only [hlekp, hcap]
        refine ⟨by simp [h1], by simp [h2, pagesItems], ?_⟩
        simp [h3, add_assoc]

/-- C1: for a finite capacity budget `B` and per-page capacity reports
`cs`, the scan raises `CapacityBudgetExceeded` — carrying the budget and
the cumulative spend — immediately before requesting the first page
(number `n + 1`) whose preceding reports sum to at least `B`: exactly `n`
pages are requested, their items were already yielded, and no further page
is requested. -/
theorem iter_all_items_paginated_budget_abort
    (environment_api_key : String) (limit : ℕ)
    (projection_expression : Option String) (overrides_only : Bool)
    (B : ℚ) (pages : List Page) (cs : List ℚ) (n : ℕ)
    (hmap : pages.map Page.consumedCapacity = cs.map some)
    (hlek : ∀ p ∈ pages, p.lastEvaluatedKey.isSome)
    (hn : n < pages.length)
    (hge : B ≤ (cs.take n).sum)
    (hlt : ∀ m < n, (cs.take m).sum < B) :
    (iter_all_items_paginated environment_api_key limit projection_expression
        (B : ℚ) overrides_only pages).requests.length = n ∧
    (iter_all_items_paginated environment_api_key limit projection_expression
        (B : ℚ) overrides_only pages).yielded = pagesItems (pages.take n) ∧
    (iter_all_items_paginated environment_api_key limit projection_expression
        (B : ℚ) overrides_only pages).error
      = some ((B : WithTop ℚ), (cs.take n).sum) := by
  have h := iterLoop_budget_abort B n pages cs
    { environment_api_key := environment_api_key
      limit := limit
      start_key := none
      filter_expression :=
        if overrides_only then some overridesFilter else none
      projection_expression := projection_expression
      return_consumed_capacity := decide (((B : ℚ) : WithTop ℚ) ≠ ⊤) }
    0 hmap hlek hn (by simpa using hge) (by simpa using hlt)
  simpa [iter_all_items_paginated] using h

/-- Witness for C1: budget 1, two pages each reporting capacity 1 and each
carrying a continuation key; the scan requests only the first page, yields
its item, and aborts with `CapacityBudgetExceeded(1, 1)` before requesting
the second. -/
theorem iter_all_items_paginated_budget_abort_witness :
    let i1 : Identity := ⟨"k1", "env", "id1", "u1", some []⟩
    let p1 : Page := ⟨[i1], some 3, some 1⟩
    let p2 : Page := ⟨[], some 4, some 1⟩
    (iter_all_items_paginated "env" 10 none ((1 : ℚ) : WithTop ℚ) false
        [p1, p2]).requests.length = 1 ∧
    (iter_all_items_paginated "env" 10 none ((1 : ℚ) : WithTop ℚ) false
        [p1, p2]).yielded = [i1] ∧
    (iter_all_items_paginated "env" 10 none ((1 : ℚ) : WithTop ℚ) false
        [p1, p2]).error = some (((1 : ℚ) : WithTop ℚ), 1) := by
  intro i1 p1 p2
  have h := iter_all_items_paginated_budget_abort "env" 10 none false
    1 [p1, p2] [1, 1] 1 (by simp [p1, p2]) (by decide) (by decide)
    (by norm_num) (by intro m hm; interval_cases m; norm_num)
  simpa [pagesItems, p1, i1] using h

/-- Counterexample to C5: with a capacity budget of zero, the scan raises
`CapacityBudgetExceeded(0, 0)` at once — the request list is empty, so the
first page is never attempted, refuting "always attempts the first page
request" for every budget including zero. -/
theorem zero_budget_aborts_before_first_page :
    let p1 : Page := ⟨[⟨"k1", "env", "id1", "u1", some []⟩], none, none⟩
    (iter_all_items_paginated "env" 10 none ((0 : ℚ) : WithTop ℚ) false
        [p1]).requests = [] ∧
    (iter_all_items_paginated "env" 10 none ((0 : ℚ) : WithTop ℚ) false
        [p1]).error = some (((0 : ℚ) : WithTop ℚ), 0) := by
  intro p1
  rw [iter_all_items_paginated, iterLoop.eq_def, if_pos (le_refl _)]
  exact ⟨rfl, rfl⟩

/-- C5 amended: the first page is always attempted when the capacity budget
is positive (in particular for every unbounded or positive finite budget);
for a budget `≤ 0` the initial check `capacity_spent >= capacity_budget`
already holds at `capacity_spent = 0`, so `CapacityBudgetExceeded(budget, 0)`
is raised before any page is requested. -/
theorem first_page_attempted_iff_positive_budget
    (environment_api_key : String) (limit : ℕ)
    (projection_expression : Option String) (overrides_only : Bool)
    (b : WithTop ℚ) (pages : List Page) (hne : pages ≠ []) :
    ((0 : WithTop ℚ) < b →
      1 ≤ (iter_all_items_paginated environment_api_key limit
          projection_expression b overrides_only pages).requests.length) ∧
    (b ≤ 0 →
      (iter_all_items_paginated environment_api_key limit
          projection_expression b overrides_only pages).requests = [] ∧
      (iter_all_items_paginated environment_api_key limit
          projection_expression b overrides_only pages).error
        = some (b, 0)) := by
  obtain ⟨p, rest, rfl⟩ := List.exists_cons_of_ne_nil hne
  constructor
  · intro hb
    have hneg : ¬ b ≤ ((0 : ℚ) : WithTop ℚ) := by
      simpa using not_le.mpr hb
    rw [iter_all_items_paginated, iterLoop.eq_def, if_neg hneg]
    cases hlek : p.lastEvaluatedKey with
    | none => simp [hlek]
    | some lek => simp [hlek]
  · intro hb
    have hpos : b ≤ ((0 : ℚ) : WithTop ℚ) := by simpa using hb
    rw [iter_all_items_paginated, iterLoop.eq_def, if_pos hpos]
    exact ⟨rfl, rfl⟩

/-- Witness for the amended C5: with budget 5 the single-page store gets
its first page request. -/
theorem first_page_attempted_iff_positive_budget_witness :
    let p1 : Page := ⟨[⟨"k1", "env", "id1", "u1", some []⟩], none, none⟩
    1 ≤ (iter_all_items_paginated "env" 10 none ((5 : ℚ) : WithTop ℚ) false
        [p1]).requests.length := by
  intro p1
  exact (first_page_attempted_iff_positive_budget "env" 10 none false
    ((5 : ℚ) : WithTop ℚ) [p1] (by simp)).1 (by norm_num)

/-- C6: with an unbounded budget no request asks the store for consumed
capacity, `capacity_spent` is never incremented (the store, not asked,
reports none), and the budget check never triggers; and for any budget,
capacity reporting (`ReturnConsumedCapacity = "TOTAL"`) is requested
exactly when the budget is finite. -/
theorem unbounded_budget_no_capacity_tracking
    (environment_api_key : String) (limit : ℕ)
    (projection_expression : Option String) (overrides_only : Bool)
    (pages : List Page)
    (hnone : ∀ p ∈ pages, p.consumedCapacity = none) :
    (∀ req ∈ (iter_all_items_paginated environment_api_key limit
        projection_expression ⊤ overrides_only pages).requests,
      req.ReturnConsumedCapacity = none) ∧
    (iter_all_items_paginated environment_api_key limit
        projection_expression ⊤ overrides_only pages).capacity_spent_final
      = 0 ∧
    (iter_all_items_paginated environment_api_key limit
        projection_expression ⊤ overrides_only pages).error = none ∧
    (∀ (b : WithTop ℚ),
      ∀ req ∈ (iter_all_items_paginated environment_api_key limit
          projection_expression b overrides_only pages).requests,
        (req.ReturnConsumedCapacity = some "TOTAL" ↔ b ≠ ⊤)) := by
  refine ⟨?_, ?_, ?_, ?_⟩
  · intro req hreq
    have h := (iterLoop_requests_fields pages _ ⊤ 0 req hreq).1
    simpa using h
  · exact iterLoop_spent_final pages hnone _ ⊤ 0
  · exact iterLoop_top_no_error pages _ 0
  · intro b req hreq
    have h := (iterLoop_requests_fields pages _ b 0 req hreq).1
    by_cases hb : b = ⊤ <;> simp [hb] at h ⊢ <;> simp [h]

/-- Witness for C6: a one-page store reporting no capacity under an
unbounded budget. -/
theorem unbounded_budget_no_capacity_tracking_witness :
    let p1 : Page := ⟨[⟨"k1", "env", "id1", "u1", some []⟩], none, none⟩
    (iter_all_items_paginated "env" 10 none ⊤ false [p1]).capacity_spent_final
      = 0 ∧
    (iter_all_items_paginated "env" 10 none ⊤ false [p1]).error = none := by
  intro p1
  have h := unbounded_budget_no_capacity_tracking "env" 10 none false [p1]
    (by intro p hp; simp at hp; subst hp; rfl)
  exact ⟨h.2.1, h.2.2.1⟩

/-- The `identity_features <> []` filter passes an item exactly when its
override list exists and is non-empty. -/
lemma overridesFilter_eval_iff (i : Identity) :
    overridesFilter.eval i = true ↔
      ∃ fs, i.identity_features = some fs ∧ fs ≠ [] := by
  cases h : i.identity_features with
  | none => simp [overridesFilter, FilterExpr.eval, h]
  | some fs => simp [overridesFilter, FilterExpr.eval, h]

/-- C7: with `overrides_only = true` every page request carries the
server-side filter `Attr("identity_features").ne([])` (for any budget);
when the store honours the filter, no yielded item has an absent or empty
override list; and the filter composes with pagination — the scan still
walks all pages and yields their concatenation. -/
theorem overrides_only_scan_filtered
    (environment_api_key : String) (limit : ℕ)
    (projection_expression : Option String)
    (front : List Page) (last : Page)
    (hfront : ∀ p ∈ front, p.lastEvaluatedKey.isSome)
    (hlast : last.lastEvaluatedKey = none) :
    (∀ (b : WithTop ℚ),
      ∀ req ∈ (iter_all_items_paginated environment_api_key limit
          projection_expression b true (front ++ [last])).requests,
        req.FilterExpression = some overridesFilter) ∧
    (∀ (b : WithTop ℚ),
      (∀ p ∈ front ++ [last], ∀ i ∈ p.items,
          overridesFilter.eval i = true) →
      ∀ i ∈ (iter_all_items_paginated environment_api_key limit
          projection_expression b true (front ++ [last])).yielded,
        ∃ fs, i.identity_features = some fs ∧ fs ≠ []) ∧
    (iter_all_items_paginated environment_api_key limit
        projection_expression ⊤ true (front ++ [last])).yielded
      = pagesItems (front ++ [last]) ∧
    (iter_all_items_paginated environment_api_key limit
        projection_expression ⊤ true (front ++ [last])).requests.length
      = front.length + 1 := by
  refine ⟨?_, ?_, ?_, ?_⟩
  · intro b req hreq
    have h := (iterLoop_requests_fields (front ++ [last]) _ b 0 req hreq).2.1
    simpa using h
  · intro b hstore i hi
    obtain ⟨p, hp, hip⟩ := iterLoop_yielded_mem (front ++ [last]) _ b 0 i hi
    exact (overridesFilter_eval_iff i).mp (hstore p hp i hip)
  · exact (iterLoop_complete front last hlast _ 0 hfront).1
  · exact (iterLoop_complete front last hlast _ 0 hfront).2.1

/-- Witness for C7: a two-page filtered scan over items with non-empty
override lists; both requests carry the filter and both items are
yielded. -/
theorem overrides_only_scan_filtered_witness :
    let i1 : Identity :=
      ⟨"k1", "env", "id1", "u1", some [⟨some 1, some ⟨some 1⟩⟩]⟩
    let i2 : Identity :=
      ⟨"k2", "env", "id2", "u2", some [⟨some 2, some ⟨some 2⟩⟩]⟩
    let p1 : Page := ⟨[i1], some 3, none⟩
    let p2 : Page := ⟨[i2], none, none⟩
    (∀ req ∈ (iter_all_items_paginated "env" 10 none ⊤ true
        [p1, p2]).requests, req.FilterExpression = some overridesFilter) ∧
    (iter_all_items_paginated "env" 10 none ⊤ true [p1, p2]).yielded
      = [i1, i2] := by
  intro i1 i2 p1 p2
  have h := overrides_only_scan_filtered "env" 10 none [p1] p2
    (by intro p hp; simp at hp; subst hp; rfl) rfl
  exact ⟨h.1 ⊤, by simpa [pagesItems, p1, p2] using h.2.2.1⟩

/-- If some entry of the list lacks the `feature_id` key, the set
comprehension of `get_identity_overrides_count` raises
`KeyError("feature_id")`. -/
lemma featureIdsOfOverrides_error_of_none (fs : List FeatureOverride)
    (e : FeatureOverride) (he : e ∈ fs) (hv : e.feature_id = none) :
    featureIdsOfOverrides fs = .error (.keyError "feature_id") := by
  induction fs with
  | nil => simp at he
  | cons f fs ih =>
    rcases List.mem_cons.mp he with rfl | hmem
    · simp [featureIdsOfOverrides, hv]
    · cases hf : f.feature_id with
      | none => simp [featureIdsOfOverrides, hf]
      | some w => simp [featureIdsOfOverrides, hf, ih hmem]

/-- A successfully collected `feature_id` list contains the id of every
entry. -/
lemma mem_featureIdsOfOverrides (fs : List FeatureOverride)
    (e : FeatureOverride) (v : ℤ) (he : e ∈ fs)
    (hv : e.feature_id = some v) :
    ∀ vs, featureIdsOfOverrides fs = .ok vs → v ∈ vs := by
  induction fs with
  | nil => simp at he
  | cons f fs ih =>
    intro vs hvs
    cases hf : f.feature_id with
    | none => simp [featureIdsOfOverrides, hf] at hvs
    | some w =>
      cases hrest : featureIdsOfOverrides fs with
      | error err => simp [featureIdsOfOverrides, hf, hrest] at hvs
      | ok ws =>
        simp only [featureIdsOfOverrides, hf, hrest] at hvs
        obtain rfl : w :: ws = vs := by simpa using hvs
        rcases List.mem_cons.mp he with rfl | hmem
        · rw [hf] at hv
          obtain rfl : w = v := by simpa using hv
          exact List.mem_cons_self _ _
        · exact List.mem_cons_of_mem _ (ih hmem ws hrest)

/-- A duplicated override entry does not change the per-identity summand of
`get_identity_overrides_count`. -/
lemma identityOverridesCount_dedup (ck eak idf uu : String)
    (fs : List FeatureOverride) (e : FeatureOverride) (he : e ∈ fs) :
    identityOverridesCount ⟨ck, eak, idf, uu, some (e :: fs)⟩
      = identityOverridesCount ⟨ck, eak, idf, uu, some fs⟩ := by
  simp only [identityOverridesCount]
  cases hv : e.feature_id with
  | none =>
    simp [featureIdsOfOverrides, hv,
      featureIdsOfOverrides_error_of_none fs e he hv]
  | some v =>
    cases hrest : featureIdsOfOverrides fs with
    | error err => simp [featureIdsOfOverrides, hv, hrest]
    | ok vs =>
      have hvmem : v ∈ vs := mem_featureIdsOfOverrides fs e v he hv vs hrest
      simp [featureIdsOfOverrides, hv, hrest,
        List.dedup_cons_of_mem hvmem]

/-- A duplicated override entry does not change the per-identity
`unique_feature_ids` set of `get_identity_override_feature_counts`. -/
lemma unique_feature_ids_dedup (ck eak idf uu : String)
    (fs : List FeatureOverride) (e : FeatureOverride) (he : e ∈ fs) :
    unique_feature_ids ⟨ck, eak, idf, uu, some (e :: fs)⟩
      = unique_feature_ids ⟨ck, eak, idf, uu, some fs⟩ := by
  simp only [unique_feature_ids, Option.getD_some, List.map_cons]
  exact List.dedup_cons_of_mem (List.mem_map_of_mem _ he)

/-- C3: for a single identity with override list
`[{feature:1},{feature:1},{feature:2}]`, `get_identity_overrides_count`
attributes exactly 2, and `get_identity_override_feature_counts` gives
feature 1 and feature 2 one identity each and every other feature zero;
and, in general, repeating an entry already in an identity's override list
changes neither aggregator's per-identity contribution. -/
theorem aggregators_dedup_within_identity :
    (get_identity_overrides_count
        [⟨"k", "env", "id", "u",
          some [⟨some 1, some ⟨some 1⟩⟩, ⟨some 1, some ⟨some 1⟩⟩,
                ⟨some 2, some ⟨some 2⟩⟩]⟩] = .ok 2 ∧
      get_identity_override_feature_counts
        [⟨"k", "env", "id", "u",
          some [⟨some 1, some ⟨some 1⟩⟩, ⟨some 1, some ⟨some 1⟩⟩,
                ⟨some 2, some ⟨some 2⟩⟩]⟩] 1 = 1 ∧
      get_identity_override_feature_counts
        [⟨"k", "env", "id", "u",
          some [⟨some 1, some ⟨some 1⟩⟩, ⟨some 1, some ⟨some 1⟩⟩,
                ⟨some 2, some ⟨some 2⟩⟩]⟩] 2 = 1 ∧
      ∀ x : ℤ, x ≠ 1 → x ≠ 2 →
        get_identity_override_feature_counts
          [⟨"k", "env", "id", "u",
            some [⟨some 1, some ⟨some 1⟩⟩, ⟨some 1, some ⟨some 1⟩⟩,
                  ⟨some 2, some ⟨some 2⟩⟩]⟩] x = 0) ∧
    (∀ (ck eak idf uu : String) (fs : List FeatureOverride)
        (e : FeatureOverride), e ∈ fs →
      identityOverridesCount ⟨ck, eak, idf, uu, some (e :: fs)⟩
        = identityOverridesCount ⟨ck, eak, idf, uu, some fs⟩ ∧
      unique_feature_ids ⟨ck, eak, idf, uu, some (e :: fs)⟩
        = unique_feature_ids ⟨ck, eak, idf, uu, some fs⟩) := by
  constructor
  · refine ⟨by rfl, by decide, by decide, ?_⟩
    intro x h1 h2
    have hu : unique_feature_ids
        ⟨"k", "env", "id", "u",
          some [⟨some 1, some ⟨some 1⟩⟩, ⟨some 1, some ⟨some 1⟩⟩,
                ⟨some 2, some ⟨some 2⟩⟩]⟩ = [1, 2] := by decide
    simp only [get_identity_override_feature_counts, List.foldl_cons,
      List.foldl_nil, hu]
    simp [bumpCounts, h1, h2]
  · intro ck eak idf uu fs e he
    exact ⟨identityOverridesCount_dedup ck eak idf uu fs e he,
      unique_feature_ids_dedup ck eak idf uu fs e he⟩

/-- Witness for C3's general deduplication clause, at a concrete duplicated
entry. -/
theorem aggregators_dedup_within_identity_witness :
    identityOverridesCount
        ⟨"k", "env", "id", "u",
          some [⟨some 5, some ⟨some 5⟩⟩, ⟨some 5, some ⟨some 5⟩⟩]⟩
      = identityOverridesCount
        ⟨"k", "env", "id", "u", some [⟨some 5, some ⟨some 5⟩⟩]⟩ :=
  (aggregators_dedup_within_identity.2 "k" "env" "id" "u"
    [⟨some 5, some ⟨some 5⟩⟩] ⟨some 5, some ⟨some 5⟩⟩ (by decide)).1

/-- If some identity of the list makes the per-identity summand raise, the
whole of `get_identity_overrides_count` raises. -/
lemma get_identity_overrides_count_error_of_mem (identities : List Identity)
    (identity : Identity) (err : PyErr) (hi : identity ∈ identities)
    (herr : identityOverridesCount identity = .error err) :
    ∃ e, get_identity_overrides_count identities = .error e := by
  induction identities with
  | nil => simp at hi
  | cons j rest ih =>
    cases hj : identityOverridesCount j with
    | error e => exact ⟨e, by simp [get_identity_overrides_count, hj]⟩
    | ok n =>
      rcases List.mem_cons.mp hi with rfl | hmem
      · rw [hj] at herr
        simp at herr
      · obtain ⟨e, he⟩ := ih hmem
        exact ⟨e, by simp [get_identity_overrides_count, hj, he]⟩

/-- Counterexample to C4: an identity whose single override entry lacks
both the `feature_id` key and the nested `feature.id` — contrary to the
claim, `get_identity_overrides_count` does not default the id to 0 but
raises `KeyError("feature_id")`, so not both aggregations complete
normally on malformed data. -/
theorem overrides_count_raises_on_missing_feature_id :
    get_identity_overrides_count
        [⟨"k", "env", "id", "u", some [⟨none, none⟩]⟩]
      = .error (.keyError "feature_id") := by rfl

/-- C4 amended: only `get_identity_override_feature_counts` treats an
override entry with a missing or malformed feature id as the sentinel id 0
and completes normally (it is a total function and counts the identity
under feature 0); `get_identity_overrides_count` reads the `feature_id` key
directly and raises `KeyError` on an identity containing such an entry. -/
theorem missing_feature_id_sentinel_handling
    (identities : List Identity) (identity : Identity)
    (fs : List FeatureOverride) (e : FeatureOverride)
    (hi : identity ∈ identities)
    (hfs : identity.identity_features = some fs)
    (he : e ∈ fs)
    (hflat : e.feature_id = none)
    (hnested : e.feature.bind Feature.id = none) :
    (∃ err, get_identity_overrides_count identities = .error err) ∧
    overrideFeatureId e = 0 ∧
    (0 : ℤ) ∈ unique_feature_ids identity := by
  have herr : identityOverridesCount identity
      = .error (.keyError "feature_id") := by
    simp [identityOverridesCount, hfs,
      featureIdsOfOverrides_error_of_none fs e he hflat]
  have hzero : overrideFeatureId e = 0 := by
    cases hf : e.feature with
    | none => simp [overrideFeatureId, hf]
    | some feat =>
      rw [hf] at hnested
      simp only [Option.some_bind] at hnested
      simp [overrideFeatureId, hf, hnested]
  refine ⟨get_identity_overrides_count_error_of_mem identities identity _
    hi herr, hzero, ?_⟩
  have : (0 : ℤ) ∈ (fs.map overrideFeatureId) := by
    rw [← hzero]
    exact List.mem_map_of_mem _ he
  simp [unique_feature_ids, hfs, List.mem_dedup, this]

/-- Witness for the amended C4 at a concrete malformed identity. -/
theorem missing_feature_id_sentinel_handling_witness :
    (∃ err, get_identity_overrides_count
        [⟨"k", "env", "id", "u", some [⟨none, none⟩]⟩] = .error err) ∧
    overrideFeatureId ⟨none, none⟩ = 0 ∧
    (0 : ℤ) ∈ unique_feature_ids
        ⟨"k", "env", "id", "u", some [⟨none, none⟩]⟩ :=
  missing_feature_id_sentinel_handling
    [⟨"k", "env", "id", "u", some [⟨none, none⟩]⟩]
    ⟨"k", "env", "id", "u", some [⟨none, none⟩]⟩
    [⟨none, none⟩] ⟨none, none⟩ (by decide) rfl (by decide) rfl rfl

set_option maxRecDepth 100000 in
/-- C8 evaluated at the failing input: an identifier of 512 copies of
U+00E9 followed by one ASCII character encodes to 1025 UTF-8 bytes —
over the DynamoDB 1024-byte sort-key quota the code's own comment cites —
yet `len()` counts 513 characters, so `write_identities` sends the
document to the store instead of skipping it.  (For comparison, a
1025-character ASCII identifier is skipped while the rest of the batch is
written, which is the behaviour the claim describes.) -/
theorem write_identities_checks_chars_not_bytes :
    let bad : Identity :=
      ⟨"k", "env", String.mk (List.replicate 512 'é' ++ ['a']), "u", some []⟩
    let asciiBad : Identity :=
      ⟨"k3", "env", String.mk (List.replicate 1025 'a'), "u3", some []⟩
    let good : Identity := ⟨"k2", "env", "ok", "u2", some []⟩
    utf8Bytes bad.identifier = 1025 ∧
    bad.identifier.length = 513 ∧
    write_identities [bad, good] = [bad, good] ∧
    utf8Bytes asciiBad.identifier = 1025 ∧
    write_identities [asciiBad, good] = [good] := by
  intro bad asciiBad good
  refine ⟨by decide, by decide, by decide, by decide, by decide⟩

/-- C9: for a uuid held by no item of the table, the convenience
entrypoint `get_item_from_uuid_or_404` raises the NotFound-class error,
while the same lookup miss inside `get_segment_ids` (called with only an
`identity_pk`) falls through the `suppress(ObjectDoesNotExist)` block and
returns the empty segment list without raising. -/
theorem uuid_miss_404_vs_segment_soft_fail
    (table : List Identity) (uuid : String)
    (resolveSegments : Identity → List ℤ)
    (hmiss : ∀ i ∈ table, i.identity_uuid ≠ uuid) :
    get_item_from_uuid_or_404 table uuid = .error {} ∧
    get_segment_ids table (some uuid) none resolveSegments = .ok [] := by
  have hq : query_identity_uuid_index table uuid 1 = [] := by
    have : table.filter (fun i => i.identity_uuid = uuid) = [] := by
      rw [List.filter_eq_nil_iff]
      intro i hi
      simpa using hmiss i hi
    simp [query_identity_uuid_index, this]
  have hlookup : get_item_from_uuid table uuid
      = .error ObjectDoesNotExist.mk := by
    simp [get_item_from_uuid, hq]
  exact ⟨by simp [get_item_from_uuid_or_404, hlookup],
    by simp [get_segment_ids, hlookup]⟩

/-- Witness for C9 at the empty table. -/
theorem uuid_miss_404_vs_segment_soft_fail_witness :
    get_item_from_uuid_or_404 [] "some-uuid" = .error {} ∧
    get_segment_ids [] (some "some-uuid") none (fun _ => [1, 2]) = .ok [] :=
  uuid_miss_404_vs_segment_soft_fail [] "some-uuid" (fun _ => [1, 2])
    (by intro i hi; simp at hi)

/-- C10: `put_item` is an upsert keyed by the item's own `composite_key`,
and `get_item` is a point lookup — writing any item to any table state and
reading back its composite key returns that very item, and a key never
written reads back as absent. -/
theorem put_get_round_trip (table : TableState) (item : Identity)
    (k : String) :
    get_item (put_item table item) item.composite_key = some item ∧
    get_item emptyTable k = none := by
  exact ⟨by simp [get_item, put_item], rfl⟩

end IdentityWrapper
